import Mathlib

/-!
Verification of the pull-based value-pipeline core of the repository:
the size-bounded batch accumulator, the run-length grouping loop, the
peekable pull stream, the short-circuiting fallible chain, and the
parse/validate/format pipeline.  Every definition is a shallow embedding
of the corresponding Rust item; machine strings are modelled as Lean
strings or lists of characters (all inputs involved are ASCII, so the
byte length used by the Rust code equals the character count).
-/

set_option autoImplicit false

/-! ### Batch accumulator (src/basic/while-let.rs, `DataBatch` and the
batch-processing loop, lines 542-610) -/

/-- Embeds the Rust struct `DataBatch { items: Vec<String>, size_bytes: usize }`. -/
structure DataBatch where
  items : List String
  size_bytes : Nat
  deriving Repr, DecidableEq

/-- Embeds `DataBatch::new`: an empty batch.  Note that the Rust
constructor takes no capacity argument and cannot fail. -/
def DataBatch.new : DataBatch :=
  { items := [], size_bytes := 0 }

/-- Embeds `DataBatch::add`: pushes the item and adds its byte length. -/
def DataBatch.add (b : DataBatch) (item : String) : DataBatch :=
  { items := b.items ++ [item], size_bytes := b.size_bytes + item.length }

/-- Embeds `DataBatch::is_full`: `self.size_bytes >= max_size`. -/
def DataBatch.is_full (b : DataBatch) (max_size : Nat) : Bool :=
  b.size_bytes ≥ max_size

/-- Embeds the inner `while let Some(item) = items_iter.next()` loop of the
batch-processing example: if the current batch is full, the batch is emitted
and a new batch is started seeded with the pulled item, otherwise the item is
appended; when the iterator is exhausted the remaining batch is emitted.
The returned list is the sequence of emitted batches in order. -/
def batchLoop (cap : Nat) (batch : DataBatch) : List String → List DataBatch
  | [] => [batch]
  | item :: rest =>
    if batch.is_full cap then
      batch :: batchLoop cap (DataBatch.new.add item) rest
    else
      batchLoop cap (batch.add item) rest

/-- Embeds the outer `while let Some(first_item) = items_iter.next()` loop
(which seeds the first batch with the first item and, because of the final
`break`, runs its body exactly once when the input is nonempty). -/
def runBatches (cap : Nat) : List String → List DataBatch
  | [] => []
  | first :: rest => batchLoop cap (DataBatch.new.add first) rest

/-- The seven demo items fed to the batch loop in the source
(byte sizes 5, 12, 5, 22, 5, 12, 5). -/
def demoItems : List String :=
  ["item1", "item2_longer", "item3", "item4_very_long_string", "item5",
   "item6_medium", "item7"]

/-- Cumulative sizes of a batch's items after each addition:
entry `k` is the total byte size of the first `k + 1` items. -/
def cumSizes (items : List String) : List Nat :=
  (List.range items.length).map fun k => (((items.take (k + 1)).map String.length).sum)

/-- Helper for the fixed-capacity-zero analysis: with capacity 0 every
fullness check fires, so the loop emits the current batch and then one
singleton batch per remaining item. -/
theorem batchLoop_zero (batch : DataBatch) (items : List String) :
    batchLoop 0 batch items = batch :: items.map (fun i => DataBatch.new.add i) := by
  induction items generalizing batch with
  | nil => simp [batchLoop]
  | cons i rest ih =>
      simp [batchLoop, DataBatch.is_full, ih]

/-- C1 counterexample: on the seven demo items with capacity 30, the claim as
stated is false.  Reading "cumulative sizes never exceed the capacity except
for a single item added immediately after a fresh (empty) batch start" as:
every cumulative size after the first addition of a batch is at most the
capacity, the first emitted batch refutes it — its cumulative sizes are
5, 17, 22, 44, and the 44 is reached by the fourth item, not by an item
added to a fresh batch. -/
theorem c1_counterexample :
    ¬ ((∀ b ∈ runBatches 30 demoItems, ∀ s ∈ (cumSizes b.items).drop 1, s ≤ 30) ∧
       ((runBatches 30 demoItems).map DataBatch.items).flatten = demoItems) := by
  decide

/-- C1 amended: with capacity 30 over the seven demo items, the loop emits
exactly two batches, `[item1, item2_longer, item3, item4_very_long_string]`
(44 bytes) and `[item5, item6_medium, item7]` (22 bytes); in every emitted
batch each cumulative size except possibly the one reached by the final
addition is strictly below the capacity (only the addition that trips the
threshold may push past it), and the concatenation of the emitted batches'
items equals the original input sequence exactly. -/
theorem c1_amended_batches :
    (runBatches 30 demoItems).map DataBatch.items =
      [["item1", "item2_longer", "item3", "item4_very_long_string"],
       ["item5", "item6_medium", "item7"]] ∧
    (∀ b ∈ runBatches 30 demoItems, ∀ s ∈ (cumSizes b.items).dropLast, s < 30) ∧
    ((runBatches 30 demoItems).map DataBatch.items).flatten = demoItems := by
  decide

/-- C2 counterexample: a non-positive capacity (0 is the only non-positive
`usize`) does not make construction fail: `DataBatch::new` takes no capacity
and the driving loop simply proceeds, emitting batches. -/
theorem c2_counterexample :
    runBatches 0 ["ab", "cd"] =
      [{ items := ["ab"], size_bytes := 2 }, { items := ["cd"], size_bytes := 2 }] := by
  decide

/-- C2 amended: there is no fail-fast construction check; `DataBatch::new`
takes no capacity argument and always succeeds, and driving the accumulator
with capacity 0 proceeds to produce one singleton batch per input item
(every fullness check fires immediately). -/
theorem c2_no_failfast (items : List String) :
    runBatches 0 items = items.map (fun i => DataBatch.new.add i) := by
  cases items with
  | nil => rfl
  | cons first rest => simp [runBatches, batchLoop_zero]

/-- C4: the batch-driving loop appends a pulled item to the current batch
exactly when the batch's cumulative size is strictly below the capacity
(`is_full` is false iff `size_bytes < cap`); when the size already meets or
exceeds the capacity the current batch is emitted unchanged and a new batch
is started holding exactly the triggering item; at stream exhaustion the
remaining batch is emitted as is, even if below capacity. -/
theorem c4_batch_step (cap : Nat) (batch : DataBatch) (item : String)
    (rest : List String) :
    (batch.is_full cap = false ↔ batch.size_bytes < cap) ∧
    (batch.size_bytes < cap →
      batchLoop cap batch (item :: rest) = batchLoop cap (batch.add item) rest) ∧
    (cap ≤ batch.size_bytes →
      batchLoop cap batch (item :: rest) =
        batch :: batchLoop cap (DataBatch.new.add item) rest) ∧
    (DataBatch.new.add item).items = [item] ∧
    batchLoop cap batch [] = [batch] := by
  refine ⟨?_, ?_, ?_, ?_, ?_⟩
  · simp [DataBatch.is_full, Nat.lt_iff_add_one_le, Nat.not_le]
  · intro h
    simp [batchLoop, DataBatch.is_full, Nat.not_le.mpr h]
  · intro h
    simp [batchLoop, DataBatch.is_full, h]
  · simp [DataBatch.new, DataBatch.add]
  · rfl

/-- C4 witness: concrete instance of the step behaviour at capacity 30 with a
5-byte batch, whose fullness check fails, so the pulled item is appended. -/
theorem c4_witness :
    ((DataBatch.new.add "item1").is_full 30 = false ↔
      (DataBatch.new.add "item1").size_bytes < 30) ∧
    batchLoop 30 (DataBatch.new.add "item1") ["item3"] =
      batchLoop 30 ((DataBatch.new.add "item1").add "item3") [] := by
  refine ⟨(c4_batch_step 30 (DataBatch.new.add "item1") "item3" ["item3"]).1, ?_⟩
  exact (c4_batch_step 30 (DataBatch.new.add "item1") "item3" []).2.1 (by decide)

/-! ### Run-length grouping (src/basic/while-let.rs, Pattern 1: peekable
iterator, lines 666-684) -/

/-- Embeds the inner `while let Some(&&next_num) = iter.peek()` loop: while
the next element of the iterator (here, the head of the remaining list) equals
`num`, consume it and increment `count`; return the final count together with
the unconsumed remainder of the iterator. -/
def countRun (num : Int) (count : Nat) : List Int → Nat × List Int
  | [] => (count, [])
  | next_num :: rest =>
    if next_num = num then countRun num (count + 1) rest
    else (count, next_num :: rest)

/-- The remainder returned by `countRun` is no longer than its input. -/
theorem countRun_length (num : Int) (count : Nat) (it : List Int) :
    (countRun num count it).2.length ≤ it.length := by
  induction it generalizing count with
  | nil => simp [countRun]
  | cons next_num rest ih =>
      by_cases h : next_num = num
      · simpa [countRun, h] using Nat.le_succ_of_le (ih (count + 1))
      · simp [countRun, h]

/-- Embeds the outer `while let Some(&num) = iter.next()` loop: pull an
element, count the run of consecutive equal elements that follows it, emit
the `(value, count)` pair and continue on the remainder. -/
def runLength : List Int → List (Int × Nat)
  | [] => []
  | num :: rest =>
    (num, (countRun num 1 rest).1) :: runLength (countRun num 1 rest).2
termination_by it => it.length
decreasing_by
  simp only [List.length_cons]
  exact Nat.lt_succ_of_le (countRun_length _ _ _)

/-- Expansion of a list of `(value, count)` pairs: each value repeated
`count` times, concatenated in order. -/
def rlExpand : List (Int × Nat) → List Int
  | [] => []
  | p :: l => List.replicate p.2 p.1 ++ rlExpand l

/-- What `countRun` computes: starting from `count`, it adds the length of
the maximal prefix of copies of `num`, and returns the rest unchanged. -/
theorem countRun_spec (it : List Int) (num : Int) (count : Nat) :
    List.replicate ((countRun num count it).1 - count) num ++ (countRun num count it).2 = it ∧
    count ≤ (countRun num count it).1 := by
  induction it generalizing count with
  | nil => simp [countRun]
  | cons next_num rest ih =>
      by_cases h : next_num = num
      · subst h
        have hcr : countRun next_num count (next_num :: rest) =
            countRun next_num (count + 1) rest := by
          simp [countRun]
        rw [hcr]
        obtain ⟨h1, h2⟩ := ih (count + 1)
        refine ⟨?_, by omega⟩
        have hs : (countRun next_num (count + 1) rest).1 - count =
            ((countRun next_num (count + 1) rest).1 - (count + 1)) + 1 := by
          omega
        rw [hs, List.replicate_succ, List.cons_append, h1]
      · simp [countRun, h]

/-- Expanding the groups emitted on `it` reproduces `it` exactly: the emitted
values appear in the original relative order, nothing is reordered or
duplicated across groups. -/
theorem rlExpand_runLength (it : List Int) : rlExpand (runLength it) = it := by
  have H : ∀ n (it : List Int), it.length ≤ n → rlExpand (runLength it) = it := by
    intro n
    induction n with
    | zero =>
        intro it hit
        have : it = [] := List.length_eq_zero.mp (Nat.le_zero.mp hit)
        subst this
        simp [runLength, rlExpand]
    | succ n ih =>
        intro it hit
        match it with
        | [] => simp [runLength, rlExpand]
        | num :: rest =>
            obtain ⟨h1, h2⟩ := countRun_spec rest num 1
            have hle : (countRun num 1 rest).2.length ≤ n := by
              have := countRun_length num 1 rest
              simp only [List.length_cons] at hit
              omega
            have hrec := ih _ hle
            rw [runLength]
            simp only [rlExpand]
            rw [hrec]
            have hc : (countRun num 1 rest).1 = ((countRun num 1 rest).1 - 1) + 1 := by
              omega
            rw [hc, List.replicate_succ, List.cons_append, h1]
  exact H it.length it le_rfl

/-- The length of an expansion is the sum of the counts. -/
theorem rlExpand_length (l : List (Int × Nat)) :
    (rlExpand l).length = (l.map Prod.snd).sum := by
  induction l with
  | nil => rfl
  | cons p ps ih => simp [rlExpand, ih]

/-- C5: for every finite input sequence the run-length loop emits pairs whose
expansion (each value repeated its count) reproduces the input exactly —
values in original relative order, no reordering or duplication across
groups; the sum of the emitted counts equals the input length; and on
`[1, 1, 2, 3, 3, 3, 4]` the output is `[(1,2), (2,1), (3,3), (4,1)]`. -/
theorem c5_run_length_scanner (it : List Int) :
    rlExpand (runLength it) = it ∧
    ((runLength it).map Prod.snd).sum = it.length ∧
    runLength [1, 1, 2, 3, 3, 3, 4] = [(1, 2), (2, 1), (3, 3), (4, 1)] := by
  refine ⟨rlExpand_runLength it, ?_, by simp [runLength, countRun]⟩
  rw [← rlExpand_length, rlExpand_runLength]

/-! ### Pull stream (src/basic/while-let.rs, `DataSource::fetch_next`,
lines 180-198, and the peekable iterator of Pattern 1) -/

/-- Embeds the Rust struct `DataSource { data: Vec<String>, index: usize }`,
generalised over the element type. -/
structure DataSource (α : Type) where
  data : List α
  index : Nat
  deriving Repr, DecidableEq

/-- Embeds `DataSource::fetch_next`: if the cursor is within bounds, return
the element at the cursor and advance the cursor, otherwise return `none`.
The result pairs the returned option with the updated source state. -/
def DataSource.fetch_next {α : Type} (s : DataSource α) : Option α × DataSource α :=
  if h : s.index < s.data.length then
    (some (s.data.get ⟨s.index, h⟩), { s with index := s.index + 1 })
  else
    (none, s)

/-- Embeds the standard library's `Peekable` wrapper used by the source:
a backing iterator plus a single-slot lookahead buffer.  `peeked = some v`
records that `next()` was already called on the backing iterator and
returned `v` (which itself may be `none`). -/
structure Peekable (α : Type) where
  source : DataSource α
  peeked : Option (Option α)
  deriving Repr, DecidableEq

/-- Embeds `Peekable::peek`: fill the lookahead buffer from the backing
iterator if it is empty, then return the buffered outcome without
advancing the logical consumption point. -/
def Peekable.peek {α : Type} (p : Peekable α) : Option α × Peekable α :=
  match p.peeked with
  | some v => (v, p)
  | none =>
    ((p.source.fetch_next).1,
     { source := (p.source.fetch_next).2, peeked := some (p.source.fetch_next).1 })

/-- Embeds `Peekable::next`: take the buffered outcome if present,
otherwise pull directly from the backing iterator. -/
def Peekable.next {α : Type} (p : Peekable α) : Option α × Peekable α :=
  match p.peeked with
  | some v => (v, { source := p.source, peeked := none })
  | none => ((p.source.fetch_next).1, { source := (p.source.fetch_next).2, peeked := none })

/-- C8: peeking is idempotent — a second `peek` with no intervening advance
returns the same value and leaves the stream state unchanged, and the value
the next `next()` (advance) returns is the same as it would have been had
the peeks not happened. -/
theorem c8_peek_idempotent (α : Type) (p : Peekable α) :
    (p.peek.2).peek = (p.peek.1, p.peek.2) ∧
    ((p.peek.2).next).1 = (p.next).1 := by
  cases hp : p.peeked with
  | some v => simp [Peekable.peek, Peekable.next, hp]
  | none => simp [Peekable.peek, Peekable.next, hp]

/-- C9: exhaustion of `fetch_next` is terminal and idempotent: whenever a
call returns `none`, the state is returned unchanged (the cursor does not
move), and calling again on that state returns `none` with the same state
once more — end-of-data is a normal signal, never an error. -/
theorem c9_exhaustion_terminal (α : Type) (s t : DataSource α)
    (h : s.fetch_next = (none, t)) :
    t = s ∧ t.fetch_next = (none, t) := by
  by_cases hb : s.index < s.data.length
  · exfalso
    simp [DataSource.fetch_next, hb] at h
  · have hs : s.fetch_next = (none, s) := by
      simp [DataSource.fetch_next, hb]
    rw [hs] at h
    obtain ⟨rfl⟩ : t = s := by
      cases h
      rfl
    exact ⟨rfl, hs⟩

/-- C9 witness: the concrete source holding `["Record 1"]` with the cursor
already past the end returns `none` and stays put. -/
theorem c9_witness :
    (⟨["Record 1"], 1⟩ : DataSource String) = ⟨["Record 1"], 1⟩ ∧
    (⟨["Record 1"], 1⟩ : DataSource String).fetch_next =
      (none, ⟨["Record 1"], 1⟩) :=
  c9_exhaustion_terminal String ⟨["Record 1"], 1⟩ ⟨["Record 1"], 1⟩ (by decide)

/-! ### Fallible chain (src/basic/result-type.rs, `MenuChoice`,
`get_choice`, `pick_choice`, lines 28-85) -/

/-- Embeds the Rust enum `MenuChoice { MainMenu, Start, Quit }`. -/
inductive MenuChoice where
  | MainMenu
  | Start
  | Quit
  deriving Repr, DecidableEq

/-- The text `{:?}` produces for a `MenuChoice` value. -/
def MenuChoice.debugText : MenuChoice → String
  | .MainMenu => "MainMenu"
  | .Start => "Start"
  | .Quit => "Quit"

/-- Embeds `get_choice`: maps the three recognised inputs to their menu
choices and everything else to the error `"Invalid choice"`. -/
def get_choice (input : String) : Except String MenuChoice :=
  if input = "mainmenu" then .ok .MainMenu
  else if input = "start" then .ok .Start
  else if input = "quit" then .ok .Quit
  else .error "Invalid choice"

/-- The `chain` combinator of the spec (`and_then` on a fallible result);
the `?` operator in the source is exactly this: a `Failure` returns
immediately, a `Success` feeds its value to the rest of the function. -/
def chainResult {ε α β : Type} (r : Except ε α) (f : α → Except ε β) : Except ε β :=
  match r with
  | .error e => .error e
  | .ok v => f v

/-- Embeds `pick_choice`.  Side effects are made explicit: the second
component is the list of lines the function prints.  The `?` on
`get_choice(input)?` is the early return of the error; the `println!` line
runs only when the chain point was passed. -/
def pick_choice (input : String) : Except String Unit × List String :=
  match get_choice input with
  | .error e => (.error e, [])
  | .ok choice => (.ok (), ["User choice is " ++ choice.debugText])

/-- C6: the fallible chain short-circuits — chaining any stage function `f`
after a `Failure e` yields `Failure e` itself, for every `f` (so no stage
function is ever consulted and the payload is unchanged); and whenever
`get_choice` rejects an input with error `e`, `pick_choice` returns exactly
`Failure e` and prints nothing (the code after the chain point never runs). -/
theorem c6_short_circuit :
    (∀ (ε α β : Type) (e : ε) (f : α → Except ε β), chainResult (.error e) f = .error e) ∧
    (∀ (input : String) (e : String),
      get_choice input = .error e → pick_choice input = (.error e, [])) := by
  constructor
  · intro ε α β e f
    rfl
  · intro input e h
    simp [pick_choice, h]

/-- C6 witness: on `"invalid_choice"` (the rejected input used by the
source's own demo), `pick_choice` returns the unchanged failure payload and
an empty print log, and the generic chain law at a concrete stage. -/
theorem c6_witness :
    pick_choice "invalid_choice" = (.error "Invalid choice", []) ∧
    chainResult (.error "Invalid choice")
      (fun c : MenuChoice => (.ok c : Except String MenuChoice)) =
      .error "Invalid choice" :=
  ⟨c6_short_circuit.2 "invalid_choice" "Invalid choice" (by simp [get_choice]),
   c6_short_circuit.1 String MenuChoice MenuChoice "Invalid choice" _⟩

/-! ### Parse / validate / format pipeline (src/basic/option-combinator.rs,
`Person`, `parse_user_input`, `validate_person`, `format_person` and the
chained pipeline of section 8, lines 34-39 and 255-303).  Raw text is
modelled as `List Char`; the inputs involved are ASCII, so Rust's byte-level
operations coincide with the character-level ones. -/

/-- Whitespace as recognised by `str::trim` on the characters that occur in
this program (ASCII whitespace). -/
def isWS (c : Char) : Bool :=
  c = ' ' || c = '\t' || c = '\n' || c = '\r'

/-- Embeds `str::trim`: removes leading and trailing whitespace. -/
def trimStr (l : List Char) : List Char :=
  ((l.dropWhile isWS).reverse.dropWhile isWS).reverse

/-- Embeds `input.split(',')`: cuts at every comma, producing one piece more
than the number of commas (empty pieces included). -/
def splitComma : List Char → List (List Char)
  | [] => [[]]
  | c :: rest =>
    if c = ',' then [] :: splitComma rest
    else
      match splitComma rest with
      | [] => [[c]]
      | p :: ps => (c :: p) :: ps

/-- Embeds `str::parse::<u32>()`: an optional leading `+`, then at least one
decimal digit, no other characters, and the value must fit in 32 bits. -/
def parseU32 (s : List Char) : Option Nat :=
  let digits := match s with
    | '+' :: rest => rest
    | _ => s
  if digits = [] then none
  else if digits.all (fun c => c.isDigit) then
    let n := digits.foldl (fun acc c => acc * 10 + (c.toNat - '0'.toNat)) 0
    if n < 4294967296 then some n else none
  else none

/-- Embeds the Rust struct `Person { name: String, age: u32, email: Option<String> }`. -/
structure Person where
  name : List Char
  age : Nat
  email : Option (List Char)
  deriving Repr, DecidableEq

/-- Embeds `parse_user_input`: split on commas, require exactly three
fields, trim each field, parse the age, and treat an empty (after trimming)
third field as an absent email. -/
def parse_user_input (input : List Char) : Option Person :=
  match splitComma input with
  | [p0, p1, p2] =>
    match parseU32 (trimStr p1) with
    | none => none
    | some age =>
      some { name := trimStr p0, age := age,
             email := if trimStr p2 = [] then none else some (trimStr p2) }
  | _ => none

/-- Embeds `validate_person`: `person.age >= 13 && !person.name.is_empty()`. -/
def validate_person (p : Person) : Option Person :=
  if 13 ≤ p.age ∧ p.name ≠ [] then some p else none

/-- Embeds `format_person`: `"{name} ({age}) - {email}"` when the email is
present, `"{name} ({age})"` when it is absent. -/
def format_person (p : Person) : List Char :=
  match p.email with
  | some email =>
      p.name ++ " (".data ++ Nat.toDigits 10 p.age ++ ") - ".data ++ email
  | none =>
      p.name ++ " (".data ++ Nat.toDigits 10 p.age ++ ")".data

/-- Embeds the chained pipeline of the source's section 8:
`Some(input).and_then(parse_user_input).and_then(validate_person)
.map(format_person).unwrap_or_else(|| "Invalid person")`. -/
def pipeline (input : List Char) : List Char :=
  ((((some input).bind fun s => parse_user_input s).bind fun p =>
      validate_person p).map fun p => format_person p).getD "Invalid person".data

/-- Splitting a text that starts with a comma-free piece followed by a comma
yields that piece and then the split of the remainder. -/
theorem splitComma_append (f : List Char) (rest : List Char) (h : ',' ∉ f) :
    splitComma (f ++ ',' :: rest) = f :: splitComma rest := by
  induction f with
  | nil => simp [splitComma]
  | cons c f ih =>
      have hc : c ≠ ',' := fun hcc => h (by simp [hcc])
      have hf : ',' ∉ f := fun hin => h (List.mem_cons_of_mem c hin)
      simp only [List.cons_append, splitComma, List.append_eq, if_neg hc, ih hf]

/-- Splitting a comma-free text yields that text as the only piece. -/
theorem splitComma_no_comma (f : List Char) (h : ',' ∉ f) :
    splitComma f = [f] := by
  induction f with
  | nil => rfl
  | cons c f ih =>
      have hc : c ≠ ',' := fun hcc => h (by simp [hcc])
      have hf : ',' ∉ f := fun hin => h (List.mem_cons_of_mem c hin)
      simp only [splitComma, if_neg hc, ih hf]

/-- Trimming a text made of whitespace only leaves nothing. -/
theorem trimStr_eq_nil_of_ws (f : List Char) (h : ∀ c ∈ f, isWS c = true) :
    trimStr f = [] := by
  have h1 : f.dropWhile isWS = [] := List.dropWhile_eq_nil_iff.mpr h
  simp [trimStr, h1]

/-- C3 counterexample: the validation threshold in the code is 13, not 18.
The input `"Dave, 15, d@e.com"` parses to a record with age 15 (below 18),
yet the pipeline accepts it and formats it rather than producing the
fallback string. -/
theorem c3_counterexample :
    parse_user_input "Dave, 15, d@e.com".data =
      some { name := "Dave".data, age := 15, email := some "d@e.com".data } ∧
    15 < 18 ∧
    pipeline "Dave, 15, d@e.com".data = "Dave (15) - d@e.com".data ∧
    pipeline "Dave, 15, d@e.com".data ≠ "Invalid person".data := by
  decide

/-- C3 amended: the validation stage accepts a parsed record exactly when
its age is at least 13 and its name is nonempty, and every parsed record
with age below 13 makes the pipeline produce the fallback string instead of
a formatted record. -/
theorem c3_validation_threshold (p : Person) (input : List Char) (q : Person) :
    (validate_person p = some p ↔ 13 ≤ p.age ∧ p.name ≠ []) ∧
    (parse_user_input input = some q → q.age < 13 →
      pipeline input = "Invalid person".data) := by
  constructor
  · by_cases h : 13 ≤ p.age ∧ p.name ≠ []
    · simp [validate_person, h]
    · simp [validate_person, h]
  · intro hp hage
    have hcond : ¬ (13 ≤ q.age ∧ q.name ≠ []) := fun hc => absurd hc.1 (by omega)
    have hv : validate_person q = none := by
      simp [validate_person, hcond]
    simp [pipeline, hp, hv]

/-- C3 witness: the source's own "too young" input, `"Charlie, 12,
x@example.com"`, parses to a record with age 12; the validation
characterisation applies to it and the pipeline collapses to the fallback. -/
theorem c3_witness :
    (validate_person ⟨"Charlie".data, 12, some "x@example.com".data⟩ =
        some ⟨"Charlie".data, 12, some "x@example.com".data⟩ ↔
      13 ≤ (⟨"Charlie".data, 12, some "x@example.com".data⟩ : Person).age ∧
        (⟨"Charlie".data, 12, some "x@example.com".data⟩ : Person).name ≠ []) ∧
    pipeline "Charlie, 12, x@example.com".data = "Invalid person".data :=
  ⟨(c3_validation_threshold ⟨"Charlie".data, 12, some "x@example.com".data⟩
      "Charlie, 12, x@example.com".data
      ⟨"Charlie".data, 12, some "x@example.com".data⟩).1,
   (c3_validation_threshold ⟨"Charlie".data, 12, some "x@example.com".data⟩
      "Charlie, 12, x@example.com".data
      ⟨"Charlie".data, 12, some "x@example.com".data⟩).2 (by decide) (by decide)⟩

/-- C7: the pipeline maps `"Alice, 30, alice@example.com"` to
`"Alice (30) - alice@example.com"`; the too-young input and the
wrong-field-count input both collapse to the same fallback `"Invalid
person"`, indistinguishable in the final string; the two failure causes are
distinguishable before the collapse — the parse stage succeeds on the first
and fails on the second. -/
theorem c7_pipeline_outputs :
    pipeline "Alice, 30, alice@example.com".data =
      "Alice (30) - alice@example.com".data ∧
    pipeline "Charlie, 12, x@example.com".data = "Invalid person".data ∧
    pipeline "Invalid input".data = "Invalid person".data ∧
    pipeline "Charlie, 12, x@example.com".data = pipeline "Invalid input".data ∧
    (parse_user_input "Charlie, 12, x@example.com".data).isSome = true ∧
    parse_user_input "Invalid input".data = none := by
  decide

/-- C10 counterexample: the claim as stated quantifies over every
three-field input with a blank third field, but such an input whose age
field does not parse yields no record at all: on `"Bob, abc, "` the parse
stage returns `none` and the pipeline falls back. -/
theorem c10_counterexample :
    parse_user_input "Bob, abc, ".data = none ∧
    pipeline "Bob, abc, ".data = "Invalid person".data := by
  decide

/-- C10 amended: for every input of exactly three comma-separated fields
whose third field consists of whitespace only and whose second field parses
as a `u32` after trimming, `parse_user_input` trims every field and returns
a record with an absent email, and `format_person` renders that record as
`"Name (Age)"` with no email segment; in particular the pipeline maps
`"Bob, 25, "` to `"Bob (25)"`, not to the fallback string. -/
theorem c10_empty_email (f1 f2 f3 : List Char) (a : Nat)
    (h1 : ',' ∉ f1) (h2 : ',' ∉ f2) (h3 : ',' ∉ f3)
    (hw : ∀ c ∈ f3, isWS c = true)
    (ha : parseU32 (trimStr f2) = some a) :
    parse_user_input (f1 ++ ',' :: (f2 ++ ',' :: f3)) =
      some { name := trimStr f1, age := a, email := none } ∧
    format_person { name := trimStr f1, age := a, email := none } =
      trimStr f1 ++ " (".data ++ Nat.toDigits 10 a ++ ")".data ∧
    pipeline "Bob, 25, ".data = "Bob (25)".data := by
  have hsplit : splitComma (f1 ++ ',' :: (f2 ++ ',' :: f3)) = [f1, f2, f3] := by
    rw [splitComma_append f1 (f2 ++ ',' :: f3) h1, splitComma_append f2 f3 h2,
        splitComma_no_comma f3 h3]
  have htrim : trimStr f3 = [] := trimStr_eq_nil_of_ws f3 hw
  refine ⟨?_, rfl, by decide⟩
  simp [parse_user_input, hsplit, ha, htrim]

/-- C10 witness: the amended statement at the source's own input
`"Bob, 25, "` split as `"Bob"`, `" 25"`, `" "`. -/
theorem c10_witness :
    parse_user_input ("Bob".data ++ ',' :: (" 25".data ++ ',' :: " ".data)) =
      some { name := trimStr "Bob".data, age := 25, email := none } ∧
    format_person { name := trimStr "Bob".data, age := 25, email := none } =
      trimStr "Bob".data ++ " (".data ++ Nat.toDigits 10 25 ++ ")".data ∧
    pipeline "Bob, 25, ".data = "Bob (25)".data :=
  c10_empty_email "Bob".data " 25".data " ".data 25 (by decide) (by decide)
    (by decide) (by decide) (by decide)
